import Mathlib

/-!
Verification of the pienoon curve/range math engine and asynchronous loader.

The C++ sources instantiate `RangeT<T>` at `T = float` and the curves use
`float` coefficients; we embed the arithmetic exactly over `ℚ`, so claims about
"exact real arithmetic" become exact rational identities.
-/

namespace PieNoon

/-! ## Range (source: `RangeT<T>`, src/unnamed/part_004) -/

/-- The path-choice enum for modular arithmetic (`ModularDirection`). -/
inductive ModularDirection
  | kDirectionClosest
  | kDirectionFarthest
  | kDirectionPositive
  | kDirectionNegative
  | kDirectionDirect
deriving DecidableEq, Repr

/-- `RangeT<T>` with `T` embedded as `ℚ`: the interval `[start_, end_]`. -/
structure RangeQ where
  start_ : ℚ
  end_ : ℚ
deriving DecidableEq, Repr

/-- `mathfu::Clamp(x, lower, upper)` from the external mathfu dependency:
`std::max(lower, std::min(x, upper))`. -/
def mathfuClamp (x lower upper : ℚ) : ℚ := max lower (min x upper)

namespace RangeQ

/-- `Valid()`: `start_ <= end_`. -/
def Valid (r : RangeQ) : Prop := r.start_ ≤ r.end_

instance (r : RangeQ) : Decidable r.Valid := by unfold Valid; infer_instance

/-- `Length()`: `end_ - start_`. -/
def Length (r : RangeQ) : ℚ := r.end_ - r.start_

/-- `Clamp(x)`: `mathfu::Clamp(x, start_, end_)`. -/
def Clamp (r : RangeQ) (x : ℚ) : ℚ := mathfuClamp x r.start_ r.end_

/-- `Contains(x)`: `start_ <= x && x <= end_`. -/
def Contains (r : RangeQ) (x : ℚ) : Prop := r.start_ ≤ x ∧ x ≤ r.end_

instance (r : RangeQ) (x : ℚ) : Decidable (r.Contains x) := by
  unfold Contains; infer_instance

/-- `ModularAdjustment(x)`: `x <= start_ ? length : x > end_ ? -length : 0`. -/
def ModularAdjustment (r : RangeQ) (x : ℚ) : ℚ :=
  if x ≤ r.start_ then r.Length else if r.end_ < x then -r.Length else 0

/-- The assertion inside `ModularAdjustment`:
`assert(start_ < x + adjustment && x + adjustment <= end_)`. -/
def ModularAdjustmentOk (r : RangeQ) (x : ℚ) : Prop :=
  r.start_ < x + r.ModularAdjustment x ∧ x + r.ModularAdjustment x ≤ r.end_

instance (r : RangeQ) (x : ℚ) : Decidable (r.ModularAdjustmentOk x) := by
  unfold ModularAdjustmentOk; infer_instance

/-- `Normalize(x)`: `x + ModularAdjustment(x)`. -/
def Normalize (r : RangeQ) (x : ℚ) : ℚ := x + r.ModularAdjustment x

/-- The `close` intermediate of `NormalizeWildValue`:
`x - floor((x - start_) / length) * length`. -/
def WildClose (r : RangeQ) (x : ℚ) : ℚ :=
  x - (⌊(x - r.start_) / r.Length⌋ : ℚ) * r.Length

/-- `NormalizeWildValue(x)`: divide out whole wrap-lengths, then re-run the
bounded normalization on the remainder `close`. -/
def NormalizeWildValue (r : RangeQ) (x : ℚ) : ℚ :=
  r.WildClose x + r.ModularAdjustment (r.WildClose x)

/-- `ModDiffClose(a, b)`: `Normalize(b - a)`. -/
def ModDiffClose (r : RangeQ) (a b : ℚ) : ℚ := r.Normalize (b - a)

/-- `ModDiffFar(a, b)`: `close >= 0 ? close - length : close + length`. -/
def ModDiffFar (r : RangeQ) (a b : ℚ) : ℚ :=
  if 0 ≤ r.ModDiffClose a b then r.ModDiffClose a b - r.Length
  else r.ModDiffClose a b + r.Length

/-- `ModDiffPositive(a, b)`: `close >= 0 ? close : close + length`. -/
def ModDiffPositive (r : RangeQ) (a b : ℚ) : ℚ :=
  if 0 ≤ r.ModDiffClose a b then r.ModDiffClose a b
  else r.ModDiffClose a b + r.Length

/-- `ModDiffNegative(a, b)`: `close >= 0 ? close - length : close`. -/
def ModDiffNegative (r : RangeQ) (a b : ℚ) : ℚ :=
  if 0 ≤ r.ModDiffClose a b then r.ModDiffClose a b - r.Length
  else r.ModDiffClose a b

/-- `ModDiff(a, b, direction)`: dispatch on the direction enum. -/
def ModDiff (r : RangeQ) (a b : ℚ) (direction : ModularDirection) : ℚ :=
  match direction with
  | .kDirectionClosest => r.ModDiffClose a b
  | .kDirectionFarthest => r.ModDiffFar a b
  | .kDirectionPositive => r.ModDiffPositive a b
  | .kDirectionNegative => r.ModDiffNegative a b
  | .kDirectionDirect => b - a

/-- `Invert()`: swap start and end. -/
def Invert (r : RangeQ) : RangeQ := ⟨r.end_, r.start_⟩

/-- `Intersect(a, b)`: `RangeT(max(a.start_, b.start_), min(a.end_, b.end_))`. -/
def Intersect (a b : RangeQ) : RangeQ :=
  ⟨max a.start_ b.start_, min a.end_ b.end_⟩

end RangeQ

/-! ## Cubic curves (source: src/framework/include/motive/math/curve.h) -/

/-- `CubicInit{start_y, start_derivative, end_y, end_derivative, width_x}`. -/
structure CubicInit where
  start_y : ℚ
  start_derivative : ℚ
  end_y : ℚ
  end_derivative : ℚ
  width_x : ℚ
deriving DecidableEq, Repr

/-- `CubicCurve`: coefficients of `c3*x^3 + c2*x^2 + c1*x + c0`. -/
structure CubicCurve where
  c3 : ℚ
  c2 : ℚ
  c1 : ℚ
  c0 : ℚ
deriving DecidableEq, Repr

namespace CubicCurve

/-- `Evaluate(x)`: `((c3*x + c2)*x + c1)*x + c0` (Horner form from the source). -/
def Evaluate (c : CubicCurve) (x : ℚ) : ℚ :=
  ((c.c3 * x + c.c2) * x + c.c1) * x + c.c0

/-- `Derivative(x)`: `(3*c3*x + 2*c2)*x + c1`. -/
def Derivative (c : CubicCurve) (x : ℚ) : ℚ :=
  (3 * c.c3 * x + 2 * c.c2) * x + c.c1

/-- Modelled from the spec: the body of `CubicCurve::Init(const CubicInit&)` is
declared in curve.h but its definition (curve.cpp) is not among the sources.
The spec describes it as the standard closed-form Hermite-to-polynomial
conversion solving `f(0) = y0`, `f'(0) = s0`, `f(w) = y1`, `f'(w) = s1`
for `c0..c3` over the domain `[0, width_x]`. -/
def Init (init : CubicInit) : CubicCurve :=
  let y0 := init.start_y
  let s0 := init.start_derivative
  let y1 := init.end_y
  let s1 := init.end_derivative
  let w := init.width_x
  { c3 := (2 * (y0 - y1) + (s0 + s1) * w) / (w * w * w)
    c2 := (3 * (y1 - y0) - (2 * s0 + s1) * w) / (w * w)
    c1 := s0
    c0 := y0 }

end CubicCurve

/-! ## AsyncLoader (source: src/unnamed/part_002)

The loader owns a pending queue `queue_` and a completed queue `done_`, both
FIFO. `QueueJob` appends at the tail of `queue_`, so the content of `queue_`
is exactly the submission order. There is a single worker thread; we model a
run of `LoaderWorker` as a recursive function over the pending queue that also
records the order in which `Load()` is invoked. Reaching an empty queue models
the worker blocking on the semaphore with no further jobs in the trace. -/

/-- A queued resource: the loader identifies the shutdown sentinel purely by
its `filename`; `rid` stands for the object identity of the C++ pointer. -/
structure AsyncResource where
  filename : String
  rid : Nat
deriving DecidableEq, Repr

/-- `BookendAsyncResource::kBookendFileName = "bookend"`. -/
def kBookendFileName : String := "bookend"

/-- `BookendAsyncResource::IsBookend`: `res.filename() == kBookendFileName`. -/
def IsBookend (res : AsyncResource) : Bool := res.filename == kBookendFileName

/-- The static singleton bookend enqueued by `StopLoadingWhenComplete()`. -/
def bookendResource : AsyncResource := ⟨kBookendFileName, 0⟩

/-- `AsyncLoader::LoaderWorker`: peek the head of the pending queue; stop if
empty (block on the semaphore) or if the head is a bookend (break, leaving it
at the head); otherwise `Load()` the head (append it to `loadLog`), then pop it
from the pending queue and push it onto the completed queue.
Returns `(queue_, done_, loadLog)` after the worker stops. -/
def LoaderWorker : List AsyncResource → List AsyncResource → List AsyncResource →
    List AsyncResource × List AsyncResource × List AsyncResource
  | [], done, loadLog => ([], done, loadLog)
  | res :: rest, done, loadLog =>
    if IsBookend res then (res :: rest, done, loadLog)
    else LoaderWorker rest (done ++ [res]) (loadLog ++ [res])

/-- The drain loop of `AsyncLoader::TryFinalize`: while `done_` is nonempty,
`Finalize()` its head (append it to `finLog`) and pop it. -/
def TryFinalizeLoop : List AsyncResource → List AsyncResource →
    List AsyncResource × List AsyncResource
  | [], finLog => ([], finLog)
  | res :: rest, finLog => TryFinalizeLoop rest (finLog ++ [res])

/-- `AsyncLoader::TryFinalize`: drain the completed queue, then return whether
the pending queue is empty. Returns `(done_, finLog, queue_.empty())`. -/
def TryFinalize (queue done finLog : List AsyncResource) :
    List AsyncResource × List AsyncResource × Bool :=
  let drained := TryFinalizeLoop done finLog
  (drained.1, drained.2, queue.isEmpty)

/-! ## Loader lemmas -/

/-- Running the worker on a queue whose head block consists of non-bookend
jobs followed by a sentinel: every job before the sentinel is loaded and
completed in order, and the worker stops with the sentinel still at the head. -/
lemma LoaderWorker_reaches_sentinel (jobs : List AsyncResource)
    (sentinel : AsyncResource) (after done loadLog : List AsyncResource)
    (hjobs : ∀ r ∈ jobs, IsBookend r = false)
    (hs : IsBookend sentinel = true) :
    LoaderWorker (jobs ++ sentinel :: after) done loadLog =
      (sentinel :: after, done ++ jobs, loadLog ++ jobs) := by
  induction jobs generalizing done loadLog with
  | nil => simp [LoaderWorker, hs]
  | cons r rest ih =>
    have hr : IsBookend r = false := hjobs r (by simp)
    have hrest : ∀ x ∈ rest, IsBookend x = false := fun x hx => hjobs x (by simp [hx])
    simp only [List.cons_append, LoaderWorker, hr, Bool.false_eq_true, if_false]
    rw [show rest.append (sentinel :: after) = rest ++ sentinel :: after from rfl,
      ih (done ++ [r]) (loadLog ++ [r]) hrest]
    simp

/-- A resource all of whose occurrences would be non-bookend cannot be a
bookend member of the job list. -/
lemma bookend_not_mem (jobs : List AsyncResource) (res : AsyncResource)
    (hjobs : ∀ r ∈ jobs, IsBookend r = false) (hres : IsBookend res = true) :
    res ∉ jobs := by
  intro hmem
  rw [hjobs res hmem] at hres
  exact Bool.false_ne_true hres

/-- The drain loop of `TryFinalize` finalizes the whole completed queue in
FIFO order and leaves it empty. -/
lemma TryFinalizeLoop_drains (done finLog : List AsyncResource) :
    TryFinalizeLoop done finLog = ([], finLog ++ done) := by
  induction done generalizing finLog with
  | nil => simp [TryFinalizeLoop]
  | cons r rest ih => simp [TryFinalizeLoop, ih]

/-! ## Range lemmas -/

/-- For `x` strictly above `start_ - Length()` and at most `end_ + Length()`,
the assertion inside `ModularAdjustment` holds and `Normalize` moves `x` by
exactly `-Length()`, `0`, or `Length()`. -/
lemma normalize_bounds (r : RangeQ) (x : ℚ) (_hL : 0 < r.Length)
    (h1 : r.start_ - r.Length < x) (h2 : x ≤ r.end_ + r.Length) :
    r.ModularAdjustmentOk x ∧
    (r.Normalize x - x = -r.Length ∨ r.Normalize x - x = 0 ∨
      r.Normalize x - x = r.Length) := by
  have hLdef : r.Length = r.end_ - r.start_ := rfl
  constructor
  · unfold RangeQ.ModularAdjustmentOk RangeQ.ModularAdjustment
    split_ifs with hxs hxe
    · constructor <;> linarith
    · push_neg at hxs
      constructor <;> linarith
    · push_neg at hxs hxe
      constructor <;> linarith
  · unfold RangeQ.Normalize RangeQ.ModularAdjustment
    split_ifs
    · right; right; ring
    · left; ring
    · right; left; ring

/-! ## Claims about the loader -/

/-- C2: with jobs submitted in FIFO order followed by the shutdown sentinel
(and possibly more jobs after it), the single worker `Load()`s exactly the
pre-sentinel jobs, one at a time, in submission order (`loadLog = jobs`),
moves each to the completed queue after its load (`done = jobs`, same order),
and stops at the sentinel without loading it or completing it
(the sentinel is not among the loaded/completed jobs) and without starting
any job submitted after the sentinel (they stay in the pending queue). -/
theorem loaderWorker_fifo_until_sentinel (jobs after : List AsyncResource)
    (hjobs : ∀ r ∈ jobs, IsBookend r = false) :
    LoaderWorker (jobs ++ bookendResource :: after) [] [] =
      (bookendResource :: after, jobs, jobs) ∧
    bookendResource ∉ jobs := by
  constructor
  · have h := LoaderWorker_reaches_sentinel jobs bookendResource after [] [] hjobs (by decide)
    simpa using h
  · exact bookend_not_mem jobs bookendResource hjobs (by decide)

theorem loaderWorker_fifo_until_sentinel_witness :
    LoaderWorker ([⟨"a", 1⟩, ⟨"b", 2⟩] ++ bookendResource :: [⟨"c", 3⟩]) [] [] =
      (bookendResource :: [⟨"c", 3⟩], [⟨"a", 1⟩, ⟨"b", 2⟩], [⟨"a", 1⟩, ⟨"b", 2⟩]) ∧
    bookendResource ∉ [(⟨"a", 1⟩ : AsyncResource), ⟨"b", 2⟩] :=
  loaderWorker_fifo_until_sentinel [⟨"a", 1⟩, ⟨"b", 2⟩] [⟨"c", 3⟩] (by decide)

/-- C3: `TryFinalize` finalizes every completed job in FIFO completion order
(appending exactly `done` to the finalize log), empties the completed queue,
and returns whether the pending queue is empty; a second call with no new
completions performs no `Finalize()` calls (the log is unchanged) and returns
the same pending-empty boolean. -/
theorem tryFinalize_drains_and_idempotent (queue done finLog : List AsyncResource) :
    TryFinalize queue done finLog = ([], finLog ++ done, queue.isEmpty) ∧
    TryFinalize queue [] (finLog ++ done) = ([], finLog ++ done, queue.isEmpty) := by
  constructor
  · simp [TryFinalize, TryFinalizeLoop_drains]
  · simp [TryFinalize, TryFinalizeLoop]

/-- C9: a user-supplied resource whose filename is the reserved string
"bookend" is treated as the shutdown sentinel regardless of its identity
(`rid` is arbitrary, in particular different from the static sentinel's):
the worker exits with it at the head of the pending queue, never loads it and
never moves it to the completed queue. -/
theorem user_bookend_acts_as_sentinel (jobs after : List AsyncResource)
    (userRes : AsyncResource) (hname : userRes.filename = kBookendFileName)
    (hjobs : ∀ r ∈ jobs, IsBookend r = false) :
    IsBookend userRes = true ∧
    LoaderWorker (jobs ++ userRes :: after) [] [] = (userRes :: after, jobs, jobs) ∧
    userRes ∉ jobs := by
  have hb : IsBookend userRes = true := by simp [IsBookend, hname]
  refine ⟨hb, ?_, bookend_not_mem jobs userRes hjobs hb⟩
  have h := LoaderWorker_reaches_sentinel jobs userRes after [] [] hjobs hb
  simpa using h

theorem user_bookend_acts_as_sentinel_witness :
    IsBookend ⟨"bookend", 42⟩ = true ∧
    LoaderWorker ([⟨"x", 7⟩] ++ (⟨"bookend", 42⟩ : AsyncResource) :: []) [] [] =
      ((⟨"bookend", 42⟩ : AsyncResource) :: [], [⟨"x", 7⟩], [⟨"x", 7⟩]) ∧
    (⟨"bookend", 42⟩ : AsyncResource) ∉ [(⟨"x", 7⟩ : AsyncResource)] :=
  user_bookend_acts_as_sentinel [⟨"x", 7⟩] [] ⟨"bookend", 42⟩ rfl (by decide)

/-- C10: after the worker exits by reaching the sentinel enqueued by
`StopLoadingWhenComplete()`, the sentinel is still at the head of the pending
queue, so every subsequent `TryFinalize` returns `false` — even though all
real jobs have been loaded, and regardless of how much has been finalized. -/
theorem sentinel_blocks_tryFinalize (jobs finLog : List AsyncResource)
    (hjobs : ∀ r ∈ jobs, IsBookend r = false) :
    (LoaderWorker (jobs ++ [bookendResource]) [] []).1 = [bookendResource] ∧
    (TryFinalize (LoaderWorker (jobs ++ [bookendResource]) [] []).1
        (LoaderWorker (jobs ++ [bookendResource]) [] []).2.1 finLog).2.2 = false := by
  have h := LoaderWorker_reaches_sentinel jobs bookendResource [] [] [] hjobs (by decide)
  simp only [List.append_nil] at h
  rw [show jobs ++ [bookendResource] = jobs ++ bookendResource :: [] from rfl, h]
  exact ⟨rfl, rfl⟩

theorem sentinel_blocks_tryFinalize_witness :
    (LoaderWorker ([⟨"a", 1⟩] ++ [bookendResource]) [] []).1 = [bookendResource] ∧
    (TryFinalize (LoaderWorker ([⟨"a", 1⟩] ++ [bookendResource]) [] []).1
        (LoaderWorker ([⟨"a", 1⟩] ++ [bookendResource]) [] []).2.1 []).2.2 = false :=
  sentinel_blocks_tryFinalize [⟨"a", 1⟩] [] (by decide)

/-! ## Claims about normalization -/

/-- C4 counterexample: for `r = [0, 1]` the input `x = -1` is within one
`Length()` of the bounds (its distance below `start_` is exactly `Length()`),
yet the assertion inside `ModularAdjustment` fails (`start_ < x + adjustment`
is `0 < 0`) and `Normalize` returns `0`, which is not in `(start_, end_]`. -/
theorem normalize_boundary_counterexample :
    (0:ℚ) < RangeQ.Length ⟨0, 1⟩ ∧
    RangeQ.start_ ⟨0, 1⟩ - RangeQ.Length ⟨0, 1⟩ ≤ (-1 : ℚ) ∧
    (-1 : ℚ) ≤ RangeQ.end_ ⟨0, 1⟩ + RangeQ.Length ⟨0, 1⟩ ∧
    ¬ RangeQ.ModularAdjustmentOk ⟨0, 1⟩ (-1) ∧
    RangeQ.Normalize ⟨0, 1⟩ (-1) = 0 ∧
    ¬ RangeQ.start_ ⟨0, 1⟩ < RangeQ.Normalize ⟨0, 1⟩ (-1) := by
  refine ⟨by norm_num [RangeQ.Length], by norm_num [RangeQ.Length],
    by norm_num [RangeQ.Length], ?_, ?_, ?_⟩ <;>
    norm_num [RangeQ.ModularAdjustmentOk, RangeQ.ModularAdjustment,
      RangeQ.Normalize, RangeQ.Length]

/-- C4 (amended: `x` must be *strictly* more than one `Length()` short of the
start, i.e. `start_ - Length() < x ≤ end_ + Length()`; at the closed boundary
`x = start_ - Length()` the assertion fails, see the counterexample):
`Normalize x` lands in `(start_, end_]`, differs from `x` by exactly
`-Length()`, `0`, or `Length()`, and the internal assertion holds; for
arbitrary `y`, `NormalizeWildValue y` lands in `(start_, end_]`, differs from
`y` by an integer multiple of `Length()`, and the assertion holds on the
re-invoked bounded normalization of the `close` remainder. -/
theorem normalize_spec_amended (r : RangeQ) (x y : ℚ) (hL : 0 < r.Length)
    (h1 : r.start_ - r.Length < x) (h2 : x ≤ r.end_ + r.Length) :
    (r.start_ < r.Normalize x ∧ r.Normalize x ≤ r.end_) ∧
    (r.Normalize x - x = -r.Length ∨ r.Normalize x - x = 0 ∨
      r.Normalize x - x = r.Length) ∧
    r.ModularAdjustmentOk x ∧
    (r.start_ < r.NormalizeWildValue y ∧ r.NormalizeWildValue y ≤ r.end_) ∧
    (∃ k : ℤ, r.NormalizeWildValue y - y = (k : ℚ) * r.Length) ∧
    r.ModularAdjustmentOk (r.WildClose y) := by
  have hLdef : r.Length = r.end_ - r.start_ := rfl
  obtain ⟨hOk, hdiff⟩ := normalize_bounds r x hL h1 h2
  have hLne : r.Length ≠ 0 := ne_of_gt hL
  have hfl : ((⌊(y - r.start_) / r.Length⌋ : ℚ)) ≤ (y - r.start_) / r.Length :=
    Int.floor_le _
  have hfu : (y - r.start_) / r.Length < (⌊(y - r.start_) / r.Length⌋ : ℚ) + 1 :=
    Int.lt_floor_add_one _
  have hyu : y - r.start_ = ((y - r.start_) / r.Length) * r.Length :=
    (div_mul_cancel₀ (y - r.start_) hLne).symm
  have hclose : r.WildClose y - r.start_ =
      ((y - r.start_) / r.Length - (⌊(y - r.start_) / r.Length⌋ : ℚ)) * r.Length := by
    unfold RangeQ.WildClose
    calc y - (⌊(y - r.start_) / r.Length⌋ : ℚ) * r.Length - r.start_
        = (y - r.start_) - (⌊(y - r.start_) / r.Length⌋ : ℚ) * r.Length := by ring
      _ = ((y - r.start_) / r.Length) * r.Length
            - (⌊(y - r.start_) / r.Length⌋ : ℚ) * r.Length := by rw [← hyu]
      _ = ((y - r.start_) / r.Length - (⌊(y - r.start_) / r.Length⌋ : ℚ)) * r.Length := by
          ring
  have hclose_lo : r.start_ ≤ r.WildClose y := by
    nlinarith [mul_nonneg (sub_nonneg.mpr hfl) (le_of_lt hL)]
  have hclose_hi : r.WildClose y < r.end_ := by
    have hlt : ((y - r.start_) / r.Length - (⌊(y - r.start_) / r.Length⌋ : ℚ)) * r.Length
        < 1 * r.Length := by
      apply mul_lt_mul_of_pos_right _ hL
      linarith
    nlinarith
  have hOkW : r.ModularAdjustmentOk (r.WildClose y) := by
    unfold RangeQ.ModularAdjustmentOk RangeQ.ModularAdjustment
    split_ifs with hcs hce
    · constructor <;> linarith
    · constructor <;> linarith
    · push_neg at hcs hce
      constructor <;> linarith
  have hk : ∃ k : ℤ, r.NormalizeWildValue y - y = (k : ℚ) * r.Length := by
    unfold RangeQ.NormalizeWildValue RangeQ.ModularAdjustment RangeQ.WildClose
    split_ifs
    · exact ⟨1 - ⌊(y - r.start_) / r.Length⌋, by push_cast; ring⟩
    · exact ⟨-1 - ⌊(y - r.start_) / r.Length⌋, by push_cast; ring⟩
    · exact ⟨-⌊(y - r.start_) / r.Length⌋, by push_cast; ring⟩
  exact ⟨hOk, hdiff, hOk, hOkW, hk, hOkW⟩

theorem normalize_spec_amended_witness :
    (0:ℚ) < RangeQ.Length ⟨0, 1⟩ ∧
    RangeQ.start_ ⟨0, 1⟩ - RangeQ.Length ⟨0, 1⟩ < (1/2 : ℚ) ∧
    (1/2 : ℚ) ≤ RangeQ.end_ ⟨0, 1⟩ + RangeQ.Length ⟨0, 1⟩ ∧
    ((RangeQ.start_ ⟨0, 1⟩ < RangeQ.Normalize ⟨0, 1⟩ (1/2) ∧
        RangeQ.Normalize ⟨0, 1⟩ (1/2) ≤ RangeQ.end_ ⟨0, 1⟩) ∧
      (RangeQ.Normalize ⟨0, 1⟩ (1/2) - 1/2 = -RangeQ.Length ⟨0, 1⟩ ∨
        RangeQ.Normalize ⟨0, 1⟩ (1/2) - 1/2 = 0 ∨
        RangeQ.Normalize ⟨0, 1⟩ (1/2) - 1/2 = RangeQ.Length ⟨0, 1⟩) ∧
      RangeQ.ModularAdjustmentOk ⟨0, 1⟩ (1/2) ∧
      (RangeQ.start_ ⟨0, 1⟩ < RangeQ.NormalizeWildValue ⟨0, 1⟩ (17/3) ∧
        RangeQ.NormalizeWildValue ⟨0, 1⟩ (17/3) ≤ RangeQ.end_ ⟨0, 1⟩) ∧
      (∃ k : ℤ, RangeQ.NormalizeWildValue ⟨0, 1⟩ (17/3) - 17/3
          = (k : ℚ) * RangeQ.Length ⟨0, 1⟩) ∧
      RangeQ.ModularAdjustmentOk ⟨0, 1⟩ (RangeQ.WildClose ⟨0, 1⟩ (17/3))) :=
  ⟨by norm_num [RangeQ.Length], by norm_num [RangeQ.Length],
    by norm_num [RangeQ.Length],
    normalize_spec_amended ⟨0, 1⟩ (1/2) (17/3) (by norm_num [RangeQ.Length])
      (by norm_num [RangeQ.Length]) (by norm_num [RangeQ.Length])⟩

/-! ## Claims about modular differences -/

/-- C5 counterexample: for `r = [0, 4]`, `a = 1`, `b = 0` (with `b - a = -1`
well within one `Length()` of the bounds), `ModDiff(a, b, kDirectionClosest)`
returns `3`, yet `-1` also lies in `(-Length(), Length()]`, is congruent to
`b - a` modulo `Length()`, and has strictly smaller magnitude — so the result
is not the signed difference of minimal magnitude in `(-Length(), Length()]`. -/
theorem moddiff_closest_counterexample :
    (0:ℚ) < RangeQ.Length ⟨0, 4⟩ ∧
    RangeQ.start_ ⟨0, 4⟩ - RangeQ.Length ⟨0, 4⟩ < (0:ℚ) - 1 ∧
    (0:ℚ) - 1 ≤ RangeQ.end_ ⟨0, 4⟩ + RangeQ.Length ⟨0, 4⟩ ∧
    RangeQ.ModDiff ⟨0, 4⟩ 1 0 ModularDirection.kDirectionClosest = 3 ∧
    -RangeQ.Length ⟨0, 4⟩ < (-1 : ℚ) ∧ (-1 : ℚ) ≤ RangeQ.Length ⟨0, 4⟩ ∧
    ((0:ℚ) - 1) - (-1 : ℚ) = 0 * RangeQ.Length ⟨0, 4⟩ ∧
    |(-1 : ℚ)| < |RangeQ.ModDiff ⟨0, 4⟩ 1 0 ModularDirection.kDirectionClosest| := by
  refine ⟨by norm_num [RangeQ.Length], by norm_num [RangeQ.Length],
    by norm_num [RangeQ.Length], ?_, by norm_num [RangeQ.Length],
    by norm_num [RangeQ.Length], by norm_num [RangeQ.Length], ?_⟩ <;>
    norm_num [RangeQ.ModDiff, RangeQ.ModDiffClose, RangeQ.Normalize,
      RangeQ.ModularAdjustment, RangeQ.Length]

/-- C5 (amended: `kDirectionClosest` returns `Normalize(b - a)`, the unique
representative of `b - a` modulo `Length()` in `(start_, end_]` — which is the
signed difference of minimal magnitude only when the range is symmetric about
zero, `start_ = -end_`; for other ranges it need not be, see the
counterexample): `kDirectionDirect` returns `b - a`; the closest difference
lies in `(start_, end_]` and differs from `b - a` by `-Length()`, `0`, or
`Length()`; when `start_ = -end_` it has minimal magnitude among all
representatives of `b - a` in `(-Length(), Length()]`; `kDirectionFarthest`
is `close - Length()` when `close >= 0` and `close + Length()` otherwise; and
`kDirectionPositive`/`kDirectionNegative` keep the closest difference exactly
when its sign already matches (zero counting as positive) and otherwise add or
subtract one full `Length()`. -/
theorem moddiff_spec_amended (r : RangeQ) (a b : ℚ) (hL : 0 < r.Length)
    (h1 : r.start_ - r.Length < b - a) (h2 : b - a ≤ r.end_ + r.Length) :
    r.ModDiff a b ModularDirection.kDirectionDirect = b - a ∧
    r.ModDiff a b ModularDirection.kDirectionClosest = r.Normalize (b - a) ∧
    (r.start_ < r.ModDiffClose a b ∧ r.ModDiffClose a b ≤ r.end_) ∧
    (r.ModDiffClose a b - (b - a) = -r.Length ∨
      r.ModDiffClose a b - (b - a) = 0 ∨
      r.ModDiffClose a b - (b - a) = r.Length) ∧
    (r.start_ = -r.end_ → ∀ k : ℤ,
      -r.Length < (b - a) + (k : ℚ) * r.Length →
      (b - a) + (k : ℚ) * r.Length ≤ r.Length →
      |r.ModDiffClose a b| ≤ |(b - a) + (k : ℚ) * r.Length|) ∧
    r.ModDiff a b ModularDirection.kDirectionFarthest =
      (if 0 ≤ r.ModDiffClose a b then r.ModDiffClose a b - r.Length
        else r.ModDiffClose a b + r.Length) ∧
    r.ModDiff a b ModularDirection.kDirectionPositive =
      (if 0 ≤ r.ModDiffClose a b then r.ModDiffClose a b
        else r.ModDiffClose a b + r.Length) ∧
    r.ModDiff a b ModularDirection.kDirectionNegative =
      (if 0 ≤ r.ModDiffClose a b then r.ModDiffClose a b - r.Length
        else r.ModDiffClose a b) := by
  have hLdef : r.Length = r.end_ - r.start_ := rfl
  obtain ⟨hOk, hdiff⟩ := normalize_bounds r (b - a) hL h1 h2
  have hd1 : r.start_ < r.ModDiffClose a b := hOk.1
  have hd2 : r.ModDiffClose a b ≤ r.end_ := hOk.2
  refine ⟨rfl, rfl, ⟨hd1, hd2⟩, hdiff, ?_, rfl, rfl, rfl⟩
  intro hc k hk1 hk2
  have habs : |r.ModDiffClose a b| ≤ r.end_ := abs_le.mpr ⟨by linarith, hd2⟩
  have hLe : r.Length = 2 * r.end_ := by rw [hLdef, hc]; ring
  -- express the k-th representative as `close + m * Length` with `m : ℤ`
  have hdiffc : r.ModDiffClose a b - (b - a) = -r.Length ∨
      r.ModDiffClose a b - (b - a) = 0 ∨
      r.ModDiffClose a b - (b - a) = r.Length := hdiff
  have hrep : ∃ m : ℤ, (b - a) + (k : ℚ) * r.Length
      = r.ModDiffClose a b + (m : ℚ) * r.Length := by
    rcases hdiffc with h | h | h
    · exact ⟨k + 1, by push_cast; linear_combination -h⟩
    · exact ⟨k, by linear_combination -h⟩
    · exact ⟨k - 1, by push_cast; linear_combination -h⟩
  obtain ⟨m, hm⟩ := hrep
  rw [hm]
  by_cases hm0 : m = 0
  · rw [hm0]
    push_cast
    simp
  · have hm1 : (1 : ℚ) ≤ |(m : ℚ)| := by
      rw [← Int.cast_abs]
      exact_mod_cast Int.one_le_abs hm0
    have h5 : |(m : ℚ) * r.Length| = |(m : ℚ)| * r.Length := by
      rw [abs_mul, abs_of_pos hL]
    have h6 : |(m : ℚ) * r.Length| ≤
        |r.ModDiffClose a b + (m : ℚ) * r.Length| + |r.ModDiffClose a b| := by
      calc |(m : ℚ) * r.Length|
          = |(r.ModDiffClose a b + (m : ℚ) * r.Length) + (-(r.ModDiffClose a b))| := by
            ring_nf
        _ ≤ |r.ModDiffClose a b + (m : ℚ) * r.Length| + |(-(r.ModDiffClose a b))| :=
            abs_add _ _
        _ = |r.ModDiffClose a b + (m : ℚ) * r.Length| + |r.ModDiffClose a b| := by
            rw [abs_neg]
    have h7 : r.Length ≤ |(m : ℚ)| * r.Length :=
      le_mul_of_one_le_left (le_of_lt hL) hm1
    linarith

theorem moddiff_spec_amended_witness :
    (0:ℚ) < RangeQ.Length ⟨-2, 2⟩ ∧
    RangeQ.start_ ⟨-2, 2⟩ - RangeQ.Length ⟨-2, 2⟩ < (1:ℚ) - 0 ∧
    (1:ℚ) - 0 ≤ RangeQ.end_ ⟨-2, 2⟩ + RangeQ.Length ⟨-2, 2⟩ ∧
    (RangeQ.ModDiff ⟨-2, 2⟩ 0 1 ModularDirection.kDirectionDirect = 1 - 0 ∧
      RangeQ.ModDiff ⟨-2, 2⟩ 0 1 ModularDirection.kDirectionClosest =
        RangeQ.Normalize ⟨-2, 2⟩ (1 - 0) ∧
      (RangeQ.start_ ⟨-2, 2⟩ < RangeQ.ModDiffClose ⟨-2, 2⟩ 0 1 ∧
        RangeQ.ModDiffClose ⟨-2, 2⟩ 0 1 ≤ RangeQ.end_ ⟨-2, 2⟩) ∧
      (RangeQ.ModDiffClose ⟨-2, 2⟩ 0 1 - (1 - 0) = -RangeQ.Length ⟨-2, 2⟩ ∨
        RangeQ.ModDiffClose ⟨-2, 2⟩ 0 1 - (1 - 0) = 0 ∨
        RangeQ.ModDiffClose ⟨-2, 2⟩ 0 1 - (1 - 0) = RangeQ.Length ⟨-2, 2⟩) ∧
      (RangeQ.start_ ⟨-2, 2⟩ = -RangeQ.end_ ⟨-2, 2⟩ → ∀ k : ℤ,
        -RangeQ.Length ⟨-2, 2⟩ < (1 - 0) + (k : ℚ) * RangeQ.Length ⟨-2, 2⟩ →
        (1 - 0) + (k : ℚ) * RangeQ.Length ⟨-2, 2⟩ ≤ RangeQ.Length ⟨-2, 2⟩ →
        |RangeQ.ModDiffClose ⟨-2, 2⟩ 0 1| ≤
          |(1 - 0) + (k : ℚ) * RangeQ.Length ⟨-2, 2⟩|) ∧
      RangeQ.ModDiff ⟨-2, 2⟩ 0 1 ModularDirection.kDirectionFarthest =
        (if 0 ≤ RangeQ.ModDiffClose ⟨-2, 2⟩ 0 1
          then RangeQ.ModDiffClose ⟨-2, 2⟩ 0 1 - RangeQ.Length ⟨-2, 2⟩
          else RangeQ.ModDiffClose ⟨-2, 2⟩ 0 1 + RangeQ.Length ⟨-2, 2⟩) ∧
      RangeQ.ModDiff ⟨-2, 2⟩ 0 1 ModularDirection.kDirectionPositive =
        (if 0 ≤ RangeQ.ModDiffClose ⟨-2, 2⟩ 0 1
          then RangeQ.ModDiffClose ⟨-2, 2⟩ 0 1
          else RangeQ.ModDiffClose ⟨-2, 2⟩ 0 1 + RangeQ.Length ⟨-2, 2⟩) ∧
      RangeQ.ModDiff ⟨-2, 2⟩ 0 1 ModularDirection.kDirectionNegative =
        (if 0 ≤ RangeQ.ModDiffClose ⟨-2, 2⟩ 0 1
          then RangeQ.ModDiffClose ⟨-2, 2⟩ 0 1 - RangeQ.Length ⟨-2, 2⟩
          else RangeQ.ModDiffClose ⟨-2, 2⟩ 0 1)) :=
  ⟨by norm_num [RangeQ.Length], by norm_num [RangeQ.Length],
    by norm_num [RangeQ.Length],
    moddiff_spec_amended ⟨-2, 2⟩ 0 1 (by norm_num [RangeQ.Length])
      (by norm_num [RangeQ.Length]) (by norm_num [RangeQ.Length])⟩

/-- C6 counterexample: for `r = [10, 14]`, `a = 0`, `b = 12` (with
`b - a = 12` within one `Length()` of the bounds), `ModDiffClose = 12` and
`ModDiffFar = 8`: their magnitudes sum to `20`, not `Length() = 4`, and their
signed sum is `20`, neither `Length()` nor `-Length()` — the complement
property fails for ranges that do not contain zero. -/
theorem moddiff_sum_counterexample :
    (0:ℚ) < RangeQ.Length ⟨10, 14⟩ ∧
    RangeQ.start_ ⟨10, 14⟩ - RangeQ.Length ⟨10, 14⟩ < (12:ℚ) - 0 ∧
    (12:ℚ) - 0 ≤ RangeQ.end_ ⟨10, 14⟩ + RangeQ.Length ⟨10, 14⟩ ∧
    RangeQ.ModDiffClose ⟨10, 14⟩ 0 12 = 12 ∧
    RangeQ.ModDiffFar ⟨10, 14⟩ 0 12 = 8 ∧
    |RangeQ.ModDiffClose ⟨10, 14⟩ 0 12| + |RangeQ.ModDiffFar ⟨10, 14⟩ 0 12| ≠
      RangeQ.Length ⟨10, 14⟩ ∧
    RangeQ.ModDiffClose ⟨10, 14⟩ 0 12 + RangeQ.ModDiffFar ⟨10, 14⟩ 0 12 ≠
      RangeQ.Length ⟨10, 14⟩ ∧
    RangeQ.ModDiffClose ⟨10, 14⟩ 0 12 + RangeQ.ModDiffFar ⟨10, 14⟩ 0 12 ≠
      -RangeQ.Length ⟨10, 14⟩ := by
  refine ⟨by norm_num [RangeQ.Length], by norm_num [RangeQ.Length],
    by norm_num [RangeQ.Length], ?_, ?_, ?_, ?_, ?_⟩ <;>
    norm_num [RangeQ.ModDiffClose, RangeQ.ModDiffFar, RangeQ.Normalize,
      RangeQ.ModularAdjustment, RangeQ.Length]

/-- C6 (amended: the complement identity `|close| + |far| = Length()` holds
when the range contains zero, `start_ <= 0 <= end_` — it fails for ranges
away from zero, see the counterexample): for `b - a` within one `Length()` of
the bounds of a positive-length range, the magnitudes of `ModDiffClose` and
`ModDiffFar` sum to exactly `Length()` whenever `start_ <= 0 <= end_`, and —
for every such range — exactly one of `ModDiffPositive`/`ModDiffNegative`
equals `ModDiffClose`, according to the sign of `ModDiffClose`. -/
theorem moddiff_close_far_complement (r : RangeQ) (a b : ℚ) (hL : 0 < r.Length)
    (h1 : r.start_ - r.Length < b - a) (h2 : b - a ≤ r.end_ + r.Length) :
    (r.start_ ≤ 0 → 0 ≤ r.end_ →
      |r.ModDiffClose a b| + |r.ModDiffFar a b| = r.Length) ∧
    (0 ≤ r.ModDiffClose a b →
      r.ModDiffPositive a b = r.ModDiffClose a b ∧
      r.ModDiffNegative a b ≠ r.ModDiffClose a b) ∧
    (r.ModDiffClose a b < 0 →
      r.ModDiffNegative a b = r.ModDiffClose a b ∧
      r.ModDiffPositive a b ≠ r.ModDiffClose a b) := by
  have hLdef : r.Length = r.end_ - r.start_ := rfl
  obtain ⟨hOk, _⟩ := normalize_bounds r (b - a) hL h1 h2
  have hd1 : r.start_ < r.ModDiffClose a b := hOk.1
  have hd2 : r.ModDiffClose a b ≤ r.end_ := hOk.2
  refine ⟨fun hs he => ?_, fun hpos => ?_, fun hneg => ?_⟩
  · have hlo : -r.Length < r.ModDiffClose a b := by linarith
    have hhi : r.ModDiffClose a b ≤ r.Length := by linarith
    unfold RangeQ.ModDiffFar
    split_ifs with hc
    · rw [abs_of_nonneg hc, abs_of_nonpos (by linarith)]
      ring
    · push_neg at hc
      rw [abs_of_neg hc, abs_of_nonneg (by linarith)]
      ring
  · unfold RangeQ.ModDiffPositive RangeQ.ModDiffNegative
    rw [if_pos hpos, if_pos hpos]
    exact ⟨rfl, fun h => by linarith [sub_eq_self.mp h]⟩
  · unfold RangeQ.ModDiffPositive RangeQ.ModDiffNegative
    rw [if_neg (not_le.mpr hneg), if_neg (not_le.mpr hneg)]
    exact ⟨rfl, fun h => by linarith [add_right_eq_self.mp h]⟩

theorem moddiff_close_far_complement_witness :
    (0:ℚ) < RangeQ.Length ⟨-2, 2⟩ ∧
    RangeQ.start_ ⟨-2, 2⟩ - RangeQ.Length ⟨-2, 2⟩ < (3:ℚ) - 0 ∧
    (3:ℚ) - 0 ≤ RangeQ.end_ ⟨-2, 2⟩ + RangeQ.Length ⟨-2, 2⟩ ∧
    ((RangeQ.start_ ⟨-2, 2⟩ ≤ 0 → 0 ≤ RangeQ.end_ ⟨-2, 2⟩ →
        |RangeQ.ModDiffClose ⟨-2, 2⟩ 0 3| + |RangeQ.ModDiffFar ⟨-2, 2⟩ 0 3| =
          RangeQ.Length ⟨-2, 2⟩) ∧
      (0 ≤ RangeQ.ModDiffClose ⟨-2, 2⟩ 0 3 →
        RangeQ.ModDiffPositive ⟨-2, 2⟩ 0 3 = RangeQ.ModDiffClose ⟨-2, 2⟩ 0 3 ∧
        RangeQ.ModDiffNegative ⟨-2, 2⟩ 0 3 ≠ RangeQ.ModDiffClose ⟨-2, 2⟩ 0 3) ∧
      (RangeQ.ModDiffClose ⟨-2, 2⟩ 0 3 < 0 →
        RangeQ.ModDiffNegative ⟨-2, 2⟩ 0 3 = RangeQ.ModDiffClose ⟨-2, 2⟩ 0 3 ∧
        RangeQ.ModDiffPositive ⟨-2, 2⟩ 0 3 ≠ RangeQ.ModDiffClose ⟨-2, 2⟩ 0 3)) :=
  ⟨by norm_num [RangeQ.Length], by norm_num [RangeQ.Length],
    by norm_num [RangeQ.Length],
    moddiff_close_far_complement ⟨-2, 2⟩ 0 3 (by norm_num [RangeQ.Length])
      (by norm_num [RangeQ.Length]) (by norm_num [RangeQ.Length])⟩

/-! ## Claims about Intersect and Clamp -/

/-- C7: `Intersect(a, b)` is `RangeT(max(a.start_, b.start_),
min(a.end_, b.end_))`; `Intersect` is associative; and when valid `a` and `b`
do not overlap (`a.end_ < b.start_`), the result is invalid and its `Invert()`
is exactly the gap `[a.end_, b.start_]` between them. -/
theorem intersect_formula_assoc_gap (a b c : RangeQ) :
    RangeQ.Intersect a b = ⟨max a.start_ b.start_, min a.end_ b.end_⟩ ∧
    RangeQ.Intersect (RangeQ.Intersect a b) c =
      RangeQ.Intersect a (RangeQ.Intersect b c) ∧
    (a.Valid → b.Valid → a.end_ < b.start_ →
      ¬ (RangeQ.Intersect a b).Valid ∧
      (RangeQ.Intersect a b).Invert = ⟨a.end_, b.start_⟩) := by
  refine ⟨rfl, by simp [RangeQ.Intersect, max_assoc, min_assoc],
    fun hva hvb hab => ?_⟩
  have h1 : max a.start_ b.start_ = b.start_ :=
    max_eq_right (le_of_lt (lt_of_le_of_lt hva hab))
  have h2 : min a.end_ b.end_ = a.end_ :=
    min_eq_left (le_of_lt (lt_of_lt_of_le hab hvb))
  constructor
  · unfold RangeQ.Valid RangeQ.Intersect
    simp only [h1, h2]
    exact not_le.mpr hab
  · unfold RangeQ.Invert RangeQ.Intersect
    simp [h1, h2]

theorem intersect_formula_assoc_gap_witness :
    RangeQ.Valid ⟨0, 1⟩ ∧ RangeQ.Valid ⟨2, 3⟩ ∧ (1:ℚ) < 2 ∧
    ¬ (RangeQ.Intersect ⟨0, 1⟩ ⟨2, 3⟩).Valid ∧
    (RangeQ.Intersect ⟨0, 1⟩ ⟨2, 3⟩).Invert = ⟨1, 2⟩ :=
  ⟨by norm_num [RangeQ.Valid], by norm_num [RangeQ.Valid], by norm_num,
    (intersect_formula_assoc_gap ⟨0, 1⟩ ⟨2, 3⟩ ⟨0, 1⟩).2.2
      (by norm_num [RangeQ.Valid]) (by norm_num [RangeQ.Valid]) (by norm_num)⟩

/-- C8: for every valid range `r` and every `x`, `Clamp(x)` lies in
`[start_, end_]`, and `Clamp(x) = x` exactly when `Contains(x)`. -/
theorem clamp_in_range_iff_contains (r : RangeQ) (x : ℚ) (hv : r.Valid) :
    r.start_ ≤ r.Clamp x ∧ r.Clamp x ≤ r.end_ ∧
    (r.Clamp x = x ↔ r.Contains x) := by
  unfold RangeQ.Valid at hv
  unfold RangeQ.Clamp mathfuClamp RangeQ.Contains
  have hle : max r.start_ (min x r.end_) ≤ r.end_ := max_le hv (min_le_right _ _)
  refine ⟨le_max_left _ _, hle,
    ⟨fun h => ⟨h ▸ le_max_left _ _, h ▸ hle⟩, fun h => ?_⟩⟩
  rw [min_eq_left h.2, max_eq_right h.1]

theorem clamp_in_range_iff_contains_witness :
    RangeQ.Valid ⟨0, 2⟩ ∧
    (RangeQ.start_ ⟨0, 2⟩ ≤ RangeQ.Clamp ⟨0, 2⟩ 3 ∧
      RangeQ.Clamp ⟨0, 2⟩ 3 ≤ RangeQ.end_ ⟨0, 2⟩ ∧
      (RangeQ.Clamp ⟨0, 2⟩ 3 = 3 ↔ RangeQ.Contains ⟨0, 2⟩ 3)) :=
  ⟨by norm_num [RangeQ.Valid],
    clamp_in_range_iff_contains ⟨0, 2⟩ 3 (by norm_num [RangeQ.Valid])⟩

/-! ## Claims about the cubic Hermite fit -/

/-- C1: a `CubicCurve` constructed from `CubicInit{y0, s0, y1, s1, w}` with
`w > 0` matches both endpoint values and derivatives exactly:
`Evaluate(0) = y0`, `Derivative(0) = s0`, `Evaluate(w) = y1`,
`Derivative(w) = s1`. -/
theorem cubic_init_matches_endpoints (init : CubicInit)
    (hw : 0 < init.width_x) :
    (CubicCurve.Init init).Evaluate 0 = init.start_y ∧
    (CubicCurve.Init init).Derivative 0 = init.start_derivative ∧
    (CubicCurve.Init init).Evaluate init.width_x = init.end_y ∧
    (CubicCurve.Init init).Derivative init.width_x = init.end_derivative := by
  obtain ⟨y0, s0, y1, s1, w⟩ := init
  have hw' : w ≠ 0 := ne_of_gt hw
  simp only [CubicCurve.Init, CubicCurve.Evaluate, CubicCurve.Derivative]
  refine ⟨by ring, by ring, ?_, ?_⟩ <;>
    · field_simp
      ring

theorem cubic_init_matches_endpoints_witness :
    (0:ℚ) < CubicInit.width_x ⟨1, 2, 3, 4, 2⟩ ∧
    ((CubicCurve.Init ⟨1, 2, 3, 4, 2⟩).Evaluate 0 = 1 ∧
      (CubicCurve.Init ⟨1, 2, 3, 4, 2⟩).Derivative 0 = 2 ∧
      (CubicCurve.Init ⟨1, 2, 3, 4, 2⟩).Evaluate 2 = 3 ∧
      (CubicCurve.Init ⟨1, 2, 3, 4, 2⟩).Derivative 2 = 4) :=
  ⟨by norm_num, cubic_init_matches_endpoints ⟨1, 2, 3, 4, 2⟩ (by norm_num)⟩

end PieNoon
